import Mathlib

/-!
Verification of the MQTT bridge core of ebusd (src/src/ebusd/mqtthandler.cpp),
a shallow embedding in Lean 4.

C++ strings are modelled as lists of characters (ASCII semantics), the
std::map containers as association lists (iterated in entry order; std::map
iterates in key order, and no theorem below depends on a particular order),
machine integers as Int/Nat. Fallible or undefined behaviour is modelled
with Option.
-/

/-- A C++ std::string, modelled as a list of characters. -/
abbrev Str := List Char

/-- The NUL character used as the end-of-string sentinel in MqttReplacer::parse. -/
def nulChar : Char := Char.ofNat 0

/-- Character classifier matching isalnum in the C locale. -/
def isAlnumCh (c : Char) : Bool :=
  decide (('0' ≤ c ∧ c ≤ '9') ∨ ('A' ≤ c ∧ c ≤ 'Z') ∨ ('a' ≤ c ∧ c ≤ 'z'))

/-- Character classifier for valid field-name characters in MqttReplacer::parse
(letters and underscore, lines 377). -/
def isFieldChar (c : Char) : Bool :=
  decide (('a' ≤ c ∧ c ≤ 'z') ∨ ('A' ≤ c ∧ c ≤ 'Z') ∨ c = '_')

/-- ASCII toupper on one character (::toupper in the C locale). -/
def upperCh (c : Char) : Char :=
  if 'a' ≤ c ∧ c ≤ 'z' then Char.ofNat (c.toNat - 32) else c

/-- MqttReplacer::normalize (line 423): replace every non-alphanumeric character
by an underscore. -/
def strNormalize (s : Str) : Str :=
  s.map (fun c => if isAlnumCh c then c else '_')

/-- The transform with ::toupper applied to a whole string (lines 617, 653). -/
def strUpper (s : Str) : Str := s.map upperCh

/-- std::string::find(pat, start): the least position at or after start where
pat occurs in full; none models std::string::npos. Helper walking candidate
positions. -/
def strFindAux (s pat : Str) : Nat → Nat → Option Nat
  | 0, _ => none
  | n + 1, p => if pat.isPrefixOf (s.drop p) then some p else strFindAux s pat n (p + 1)

/-- std::string::find(pat, start), returning none for npos. -/
def strFind (s pat : Str) (start : Nat) : Option Nat :=
  strFindAux s pat (s.length + 1 - start) start

/-- std::string::substr(pos, len) restricted to the in-range uses in matchTopic. -/
def substr (s : Str) (pos len : Nat) : Str := (s.drop pos).take len

/-- std::string::find_last_of(c): the greatest index holding c, none for npos. -/
def findLastOf (s : Str) (c : Char) : Option Nat :=
  match s.reverse.findIdx? (fun x => x = c) with
  | none => none
  | some j => some (s.length - 1 - j)

/-- An association map from strings to values, modelling std::map (entry order
stands in for key order; lookups ignore order). -/
abbrev AMap (α : Type) := List (Str × α)

/-- std::map lookup. -/
def mapFind {α : Type} : AMap α → Str → Option α
  | [], _ => none
  | (k', v) :: rest, k => if k' = k then some v else mapFind rest k

/-- std::map operator[] assignment: replace the existing entry or insert a new one. -/
def mapSet {α : Type} : AMap α → Str → α → AMap α
  | [], k, v => [(k, v)]
  | (k', v') :: rest, k, v => if k' = k then (k', v) :: rest else (k', v') :: mapSet rest k v

/-- std::map::erase(key): remove the entry with the given key, if present. -/
def eraseKey {α : Type} : AMap α → Str → AMap α
  | [], _ => []
  | (k', v') :: rest, k => if k' = k then rest else (k', v') :: eraseKey rest k

/-- Whether std::map::erase(key) would remove something (its return value > 0). -/
def containsKey {α : Type} : AMap α → Str → Bool
  | [], _ => false
  | (k', _) :: rest, k => if k' = k then true else containsKey rest k

/-- The constants map of MqttReplacers (m_constants). -/
abbrev CMap := AMap Str

/-- One part of a parsed topic template: the text together with the knownIndex
(-1 for a literal, 0/1/2 for circuit/name/field, 3 for an unknown field),
mirroring std::pair of string and int. -/
abbrev TplPart := Str × Int

/-- The known topic field names (knownFieldNames, line 329). -/
def knownFieldNames : List Str := ["circuit".data, "name".data, "field".data]

/-- Index search of makeField over knownFieldNames. -/
def knownIdxAux : List Str → Nat → Str → Option Nat
  | [], _, _ => none
  | k :: rest, i, name => if name = k then some i else knownIdxAux rest (i + 1) name

/-- makeField (line 338): a literal gets index -1, a known field its index in
knownFieldNames, an unknown field knownFieldCount = 3. -/
def makeField (name : Str) (isField : Bool) : TplPart :=
  if isField = false then (name, -1)
  else
    match knownIdxAux knownFieldNames 0 name with
    | some i => (name, (i : Int))
    | none => (name, 3)

/-- The character scan of MqttReplacer::parse (lines 362-387): the loop runs
over the template characters plus a NUL sentinel; percent toggles field
mode, a doubled percent with nothing captured yields a literal percent, and a
non-name character closes a field. The empty-list case is the sentinel
iteration: the pending stack is flushed when non-empty (in the escaped-percent
sub-branch the stack receives the NUL and is then discarded with the loop,
so nothing is flushed there either way). -/
def scanTpl : Str → Bool → Str → List TplPart → List TplPart
  | [], inField, stack, parts =>
    if stack = [] then parts else parts ++ [makeField stack inField]
  | c :: cs, inField, stack, parts =>
    if c = '%' ∨ c = nulChar then
      if inField ∧ stack = [] then
        scanTpl cs false (stack ++ [c]) parts
      else if stack = [] then
        scanTpl cs true stack parts
      else
        scanTpl cs true [] (parts ++ [makeField stack inField])
    else
      if inField ∧ isFieldChar c = false then
        scanTpl cs false [c] (if stack = [] then parts else parts ++ [makeField stack true])
      else
        scanTpl cs inField (stack ++ [c]) parts

/-- The onlyKnown / noKnownDuplicates validation loop of MqttReplacer::parse
(lines 388-406), with the found bitmask threaded; true means the check passed. -/
def checkParts : List TplPart → Nat → Bool → Bool → Bool
  | [], _, _, _ => true
  | (_, k) :: rest, mask, onlyKnown, noDup =>
    if k < 0 then checkParts rest mask onlyKnown noDup
    else if onlyKnown = true ∧ 3 ≤ k then false
    else if noDup = true ∧ k < 3 then
      if mask.testBit k.toNat then false
      else checkParts rest (mask ||| (1 <<< k.toNat)) onlyKnown noDup
    else checkParts rest mask onlyKnown noDup

/-- The topic template engine object: the ordered parts and the emptyIfMissing
flag (class MqttReplacer). -/
structure MqttReplacer where
  parts : List TplPart
  emptyIfMissing : Bool
deriving DecidableEq, Repr

/-- MqttReplacer::parse (lines 357-409). The C++ clears m_parts at entry and
scans in place, so on a failed validation the new parts remain stored while
m_emptyIfMissing keeps its previous value; the pair returned here is the
bool result together with the object state after the call. -/
def MqttReplacer.parse (r : MqttReplacer) (tpl : Str)
    (onlyKnown noKnownDuplicates emptyIfMissing : Bool) : Bool × MqttReplacer :=
  let parts := scanTpl tpl false [] []
  if (onlyKnown || noKnownDuplicates) = true ∧
      checkParts parts 0 onlyKnown noKnownDuplicates = false then
    (false, { r with parts := parts })
  else
    (true, { parts := parts, emptyIfMissing := emptyIfMissing })

/-- The loop of MqttReplacer::has (lines 444-451) over a parts list. -/
def hasField (parts : List TplPart) (f : Str) : Bool :=
  parts.any (fun q => decide (0 ≤ q.2 ∧ q.1 = f))

/-- MqttReplacer::has. -/
def MqttReplacer.has (r : MqttReplacer) (f : Str) : Bool := hasField r.parts f

/-- The PACKAGE name baked into the default topic. Modelled from the spec:
config.h is generated at build time and not under src; the spec's examples and
topic contract use the package name ebusd. -/
def PACKAGE : Str := "ebusd".data

/-- The literal-seeding head of MqttReplacer::ensureDefault (lines 430-434):
seed an empty template with the package prefix and a slash, and append a
slash to a lone literal part lacking one. -/
def ensureSeed (parts : List TplPart) : List TplPart :=
  match parts with
  | [] => [((PACKAGE ++ "/".data : Str), (-1 : Int))]
  | [(txt, k)] =>
    if k < 0 ∧ ¬ '/' ∈ txt then [((txt ++ "/".data : Str), (-1 : Int))] else parts
  | _ => parts

/-- The field-appending tail of MqttReplacer::ensureDefault (lines 435-441):
append a circuit field and a separator when no circuit field is present, then
a name field when no name field is present. -/
def ensureFields (p1 : List TplPart) : List TplPart :=
  let p2 :=
    if hasField p1 ("circuit".data) then p1
    else p1 ++ [(("circuit".data : Str), (0 : Int)), (("/".data : Str), (-1 : Int))]
  if hasField p2 ("name".data) then p2
  else p2 ++ [(("name".data : Str), (1 : Int))]

/-- MqttReplacer::ensureDefault (lines 429-442). -/
def MqttReplacer.ensureDefault (r : MqttReplacer) : MqttReplacer :=
  { r with parts := ensureFields (ensureSeed r.parts) }

/-- The rendering loop of MqttReplacer::get (lines 455-470): literals verbatim,
fields by lookup; a missing field contributes nothing, and untilFirstEmpty
stops the whole render at a missing or empty field. -/
def getAux (vs : CMap) (untilFirstEmpty : Bool) : List TplPart → Str
  | [] => []
  | (txt, k) :: rest =>
    if k < 0 then txt ++ getAux vs untilFirstEmpty rest
    else
      match mapFind vs txt with
      | none => if untilFirstEmpty then [] else getAux vs untilFirstEmpty rest
      | some v =>
        if untilFirstEmpty = true ∧ v = [] then []
        else v ++ getAux vs untilFirstEmpty rest

/-- MqttReplacer::get (lines 453-477). -/
def MqttReplacer.get (r : MqttReplacer) (vs : CMap)
    (untilFirstEmpty onlyAlphanum : Bool) : Str :=
  let s := getAux vs untilFirstEmpty r.parts
  if onlyAlphanum then strNormalize s else s

/-- MqttReplacer::isReducable (lines 479-490): every referenced field is present. -/
def MqttReplacer.isReducable (r : MqttReplacer) (vs : CMap) : Bool :=
  r.parts.all (fun q => decide (q.2 < 0) || (mapFind vs q.1).isSome)

/-- The loop of MqttReplacer::reduce (lines 494-513) with the output stream
accumulated; an early return is an error value carrying (result, bool), full
completion carries the accumulated stream. -/
def reduceAux (eim : Bool) (vs : CMap) : List TplPart → Str → Except (Str × Bool) Str
  | [], acc => .ok acc
  | (txt, k) :: rest, acc =>
    if k < 0 then reduceAux eim vs rest (acc ++ txt)
    else
      match mapFind vs txt with
      | none => .error (if eim then [] else acc, false)
      | some v =>
        if eim = true ∧ v = [] then .error ([], true)
        else reduceAux eim vs rest (acc ++ v)

/-- MqttReplacer::reduce (lines 492-519), returning (result, resolved); the
normalize step applies only on the full-completion path as in the source. -/
def MqttReplacer.reduce (r : MqttReplacer) (vs : CMap) (onlyAlphanum : Bool) : Str × Bool :=
  match reduceAux r.emptyIfMissing vs r.parts [] with
  | .error res => res
  | .ok acc => (if onlyAlphanum then strNormalize acc else acc, true)

/-- Assignment of a matched value to the circuit/name/field out-parameters of
matchTopic by known index (lines 552-558). -/
def assignKnown (k : Int) (value c n f : Str) : Str × Str × Str :=
  if k = 0 then (value, n, f)
  else if k = 1 then (c, value, f)
  else if k = 2 then (c, n, value)
  else (c, n, f)

/-- The part-walking loop of MqttReplacer::matchTopic (lines 525-560): idx is
the current part index, last the current offset in the candidate. A literal
mismatch returns the (non-negated) index, exactly as the source does at line
529; a field part that is not last takes the candidate up to the next literal,
and a last field part takes the whole candidate string (value = remain at line
549 in the source), failing when a slash remains at or after the offset. -/
def matchAux (remain : Str) : List TplPart → Nat → Nat → Str → Str → Str →
    Int × Str × Str × Str
  | [], idx, _, c, n, f => ((idx : Int), c, n, f)
  | (txt, k) :: rest, idx, last, c, n, f =>
    if k < 0 then
      if substr remain last txt.length ≠ txt then ((idx : Int), c, n, f)
      else matchAux remain rest (idx + 1) (last + txt.length) c n f
    else
      match rest with
      | (txt2, _) :: _ =>
        match strFind remain txt2 last with
        | none => (-(idx : Int) - 1, c, n, f)
        | some pos =>
          let value := substr remain last (pos - last)
          let out := assignKnown k value c n f
          matchAux remain rest (idx + 1) (last + value.length) out.1 out.2.1 out.2.2
      | [] =>
        if strFind remain ['/'] last ≠ none then (-(idx : Int) - 1, c, n, f)
        else
          let value := remain
          let out := assignKnown k value c n f
          (((idx + 1 : Nat) : Int), out.1, out.2.1, out.2.2)

/-- MqttReplacer::matchTopic (lines 521-561): returns the part count (or the
failure code) together with the circuit/name/field out-parameters, which start
from the caller-supplied values. -/
def MqttReplacer.matchTopic (r : MqttReplacer) (remain : Str) (c n f : Str) :
    Int × Str × Str × Str :=
  matchAux remain r.parts 0 0 c n f

/-- The constants-map effect of MqttReplacers::set(key, value, removeReplacer)
(lines 608-628): store the constant, and unless the key contains a dash or
underscore or is already upper-case, also store the normalized value under the
upper-cased key; the bool is the C++ return value (true when the mirror was
written). The replacer-erasure side effect is factored out into setStr below. -/
def setConstsMirror (cs : CMap) (key value : Str) : Bool × CMap :=
  let cs1 := mapSet cs key value
  if key.any (fun c => c = '-' ∨ c = '_') then (false, cs1)
  else
    let upper := strUpper key
    if upper = key then (false, cs1)
    else (true, mapSet cs1 upper (strNormalize value))

/-- The variable store of MqttReplacers: named constants and named unresolved
templates (m_constants and m_replacers; the replacer list stands for the
std::map in key order). -/
structure MqttReplacers where
  constants : CMap
  replacers : AMap MqttReplacer
deriving DecidableEq

/-- MqttReplacers::set(key, value, removeReplacer) (lines 608-628). The C++
interleaves the constant writes with the replacer erasures; the net effect on
the two separate maps is the same. -/
def MqttReplacers.setStr (st : MqttReplacers) (key value : Str) (removeReplacer : Bool) :
    Bool × MqttReplacers :=
  let res := setConstsMirror st.constants key value
  let rs :=
    if removeReplacer then
      let rs1 := eraseKey st.replacers key
      if res.1 then eraseKey rs1 (strUpper key) else rs1
    else st.replacers
  (res.1, ⟨res.2, rs⟩)

/-- The decimal rendering of a C++ int by an ostringstream. -/
def intToStr (v : Int) : Str := (toString v).data

/-- MqttReplacers::set(key, int) (lines 630-634): only the constant entry for
the key is written, with the decimal rendering of the value. -/
def MqttReplacers.setInt (st : MqttReplacers) (key : Str) (v : Int) : MqttReplacers :=
  ⟨mapSet st.constants key (intToStr v), st.replacers⟩

/-- A record of one constant-folding event inside MqttReplacers::reduce: the
folded key, the template that was folded, and the constants map at fold time. -/
abbrev FoldEv := Str × MqttReplacer × CMap

/-- One pass of the for loop inside MqttReplacers::reduce (lines 641-658).
prev holds the entries already visited and kept, todo the entries from the
iterator position on. A reducible entry is folded: its value is stored as a
constant (set with removeReplacer false), the entry is erased, and when the
store reported a mirror write the source reads the key of the iterator
returned by erase - the entry after the erased one - upper-cases it and, if a
replacer with that upper-cased key exists, erases it and breaks out of the
pass. When the erased entry was the last one that iterator is past-the-end
and the C++ dereference of it is undefined behaviour, modelled here as none. -/
def reducePass (cs : CMap) (prev todo : AMap MqttReplacer) (reduced : Bool)
    (evts : List FoldEv) : Option (CMap × AMap MqttReplacer × Bool × List FoldEv) :=
  match todo with
  | [] => some (cs, prev, reduced, evts)
  | (k, r) :: rest =>
    if (r.isReducable cs && (r.reduce cs false).2) = true then
      let str := (r.reduce cs false).1
      let res := setConstsMirror cs k str
      let evts1 := evts ++ [(k, r, cs)]
      if res.1 = true then
        match rest with
        | [] => none
        | (k2, _) :: _ =>
          let upper := strUpper k2
          if containsKey (prev ++ rest) upper then
            some (res.2, eraseKey (prev ++ rest) upper, true, evts1)
          else reducePass res.2 prev rest true evts1
      else reducePass res.2 prev rest true evts1
    else reducePass cs (prev ++ [(k, r)]) rest reduced evts

/-- MqttReplacers::reduce (lines 636-660): the do-while loop repeating passes
until one makes no reduction, driven by explicit fuel; none when the fuel runs
out or a pass hits the undefined iterator dereference. The accumulated fold
events record every template folded into a constant. -/
def reduceLoop : Nat → CMap → AMap MqttReplacer → Option (CMap × AMap MqttReplacer × List FoldEv)
  | 0, _, _ => none
  | n + 1, cs, rs =>
    match reducePass cs [] rs false [] with
    | none => none
    | some (cs1, rs1, red, evts) =>
      if red then
        match reduceLoop n cs1 rs1 with
        | none => none
        | some (cs2, rs2, evts2) => some (cs2, rs2, evts ++ evts2)
      else some (cs1, rs1, evts)

/-- The UI field separator character. Modelled from the spec: the constant
UI_FIELD_SEPARATOR comes from lib/ebus/symbol.h which is not under src; the
spec calls it the field separator, a semicolon in user-facing payloads. -/
def UI_FIELD_SEPARATOR : Char := ';'

/-- Decimal digit test. -/
def isDigitCh (c : Char) : Bool := decide ('0' ≤ c ∧ c ≤ '9')

/-- Decimal value of a digit string. -/
def digitsToNat (s : Str) : Nat := s.foldl (fun a c => a * 10 + (c.toNat - '0'.toNat)) 0

/-- Parse of the poll-priority argument. Modelled from the spec: parseInt from
lib/utils is not under src; the spec says a priority is a decimal number in
the range 1 to 9, anything else is an error. -/
def parsePriority (s : Str) : Option Nat :=
  if s ≠ [] ∧ s.all isDigitCh = true then
    let n := digitsToNat s
    if 1 ≤ n ∧ n ≤ 9 then some n else none
  else none

/-- The payload-processing slice of MqttHandler::notifyTopic for a get command
on a non-passive message with a non-empty payload (lines 1031-1049): find the
last question mark, invalidate it unless it is at position 0 or preceded by
the field separator, then split off the argument, truncate the payload (also
dropping the separator), and request a poll-priority bump when the argument
parses in range. Returns the payload handed to readFromBus and the requested
bump, if any (the source applies the bump through Message::setPollPriority,
which is external to this core). -/
def getPayloadSlice (data : Str) : Str × Option Nat :=
  match findLastOf data '?' with
  | none => (data, none)
  | some pos =>
    if 0 < pos ∧ data.get? (pos - 1) ≠ some UI_FIELD_SEPARATOR then (data, none)
    else
      let args := data.drop (pos + 1)
      let useData := data.take (if 0 < pos then pos - 1 else pos)
      if args = [] then (useData, none)
      else
        match parsePriority args with
        | some p => (useData, if 0 < p then some p else none)
        | none => (useData, none)

/-- The mosquitto status codes this core inspects, an external library
enumeration (success, no connection, connection lost, connection refused,
invalid parameters, and a stand-in for every other code). -/
inductive MosqRet
  | success
  | noConn
  | connLost
  | connRefused
  | inval
  | other
deriving DecidableEq

/-- The connection-engine fields of MqttHandler read and written by
handleTraffic: the client handle presence, m_connected,
m_initialConnectFailed and m_lastErrorLogTime. -/
structure MqttConnState where
  hasMosq : Bool
  connected : Bool
  initialConnectFailed : Bool
  lastErrorLogTime : Int
deriving DecidableEq

/-- The external results observed during one handleTraffic call: the
mosquitto_loop status, the statuses a mosquitto_connect or
mosquitto_reconnect attempt would return, and the clock read for the
rate-limited error log. -/
structure TrafficInput where
  loopRet : MosqRet
  connectRet : MosqRet
  reconnectRet : MosqRet
  errNow : Int
deriving DecidableEq

/-- MqttHandler::handleTraffic (lines 1319-1366): drain the event loop; when
disconnected with a lost or no-connection status and reconnection is allowed,
attempt mosquitto_connect (after a failed initial connect) or
mosquitto_reconnect; a success re-establishes the connection; otherwise a
connection-type error drops m_connected and other errors log rate-limited.
Returns the new state, the needsWait result, and whether a connect or
reconnect attempt was made. -/
def handleTraffic (st : MqttConnState) (allowReconnect : Bool) (inp : TrafficInput) :
    MqttConnState × Bool × Bool :=
  if st.hasMosq = false then (st, false, false)
  else
    let ret0 := inp.loopRet
    let attempt :=
      decide (st.connected = false ∧ (ret0 = .noConn ∨ ret0 = .connLost) ∧ allowReconnect = true)
    let ret1 :=
      if attempt then
        if st.initialConnectFailed then inp.connectRet else inp.reconnectRet
      else ret0
    let icf1 :=
      if attempt ∧ st.initialConnectFailed ∧ ret1 = .success then false
      else st.initialConnectFailed
    let conn1 := if st.connected = false ∧ ret1 = .success then true else st.connected
    if conn1 = false ∨ ret1 = .success then
      ({ st with connected := conn1, initialConnectFailed := icf1 }, false, attempt)
    else if ret1 = .noConn ∨ ret1 = .connLost ∨ ret1 = .connRefused then
      ({ st with connected := false, initialConnectFailed := icf1 }, true, attempt)
    else if st.lastErrorLogTime + 10 < inp.errNow then
      ({ st with initialConnectFailed := icf1, lastErrorLogTime := inp.errNow }, true, attempt)
    else ({ st with initialConnectFailed := icf1 }, true, attempt)

/-- The scheduler-loop fields of MqttHandler::run that drive reconnection:
the connection state, the start time, the last periodic-task time and the
allowReconnect latch (lines 1078-1101). -/
structure MqttRunState where
  conn : MqttConnState
  start : Int
  lastTaskRun : Int
  allowReconnect : Bool
deriving DecidableEq

/-- The external observations of one scheduler-loop iteration: the clock read
after handleTraffic (line 1092), the clock read at the end of the periodic
task block (line 1239), and the traffic results. -/
structure RunInput where
  now : Int
  now2 : Int
  traffic : TrafficInput
deriving DecidableEq

/-- One iteration of the while loop of MqttHandler::run restricted to the
reconnect logic (lines 1087-1240): handleTraffic runs with the latch from the
previous iteration, the latch is cleared, and on a periodic-task firing (more
than 15 seconds since the last task run, no clock skew) it is set again and
the task time is refreshed; the clock-skew branch only rewinds the task time.
The body of the periodic task (uptime, definition and signal publishing,
lines 1102-1238 and 1241-1278) is outbound I/O that reads none of these
fields and writes none of them, and is omitted. Returns the new state and
whether this iteration made a connect or reconnect attempt. -/
def mqttRunStep (st : MqttRunState) (inp : RunInput) : MqttRunState × Bool :=
  let res := handleTraffic st.conn st.allowReconnect inp.traffic
  if inp.now < st.start then
    ({ st with conn := res.1, allowReconnect := false, lastTaskRun := inp.now }, res.2.2)
  else if st.lastTaskRun + 15 < inp.now then
    ({ st with conn := res.1, allowReconnect := true, lastTaskRun := inp.now2 }, res.2.2)
  else ({ st with conn := res.1, allowReconnect := false }, res.2.2)

theorem mapFind_mapSet_self {α : Type} (m : AMap α) (k : Str) (v : α) :
    mapFind (mapSet m k v) k = some v := by
  induction m with
  | nil => simp [mapSet, mapFind]
  | cons hd tl ih =>
    obtain ⟨k', v'⟩ := hd
    by_cases h : k' = k
    · simp [mapSet, mapFind, h]
    · simp [mapSet, mapFind, h, ih]

theorem mapFind_mapSet_other {α : Type} (m : AMap α) (k k0 : Str) (v : α) (h : k0 ≠ k) :
    mapFind (mapSet m k v) k0 = mapFind m k0 := by
  induction m with
  | nil => simp [mapSet, mapFind, Ne.symm h]
  | cons hd tl ih =>
    obtain ⟨k', v'⟩ := hd
    by_cases hk : k' = k
    · subst hk
      simp [mapSet, mapFind, Ne.symm h]
    · simp [mapSet, mapFind, hk, ih]

/-- C7: MqttReplacers::set(key, value) stores value as the constant for key
and, unless key contains a dash or underscore or equals its upper-cased form,
also stores under the upper-cased key a mirror constant whose value is the
original with every non-alphanumeric character replaced by an underscore;
every other constant is untouched. -/
theorem c7_set_upper_mirror (st : MqttReplacers) (key value : Str) (b : Bool) (k : Str) :
    mapFind ((st.setStr key value b).2).constants k =
      (if k = key then some value
       else if (key.any (fun c => c = '-' ∨ c = '_')) = false ∧ strUpper key ≠ key
           ∧ k = strUpper key then some (strNormalize value)
       else mapFind st.constants k) := by
  cases hA : key.any (fun c => c = '-' ∨ c = '_') with
  | true =>
    by_cases hk : k = key
    · subst hk
      simp only [MqttReplacers.setStr, setConstsMirror, hA]
      simp [mapFind_mapSet_self]
    · simp only [MqttReplacers.setStr, setConstsMirror, hA]
      simp [hk, mapFind_mapSet_other _ _ _ _ hk]
  | false =>
    by_cases hu : strUpper key = key
    · by_cases hk : k = key
      · subst hk
        simp only [MqttReplacers.setStr, setConstsMirror, hA]
        simp [hu, mapFind_mapSet_self]
      · simp only [MqttReplacers.setStr, setConstsMirror, hA]
        simp [hu, hk, mapFind_mapSet_other _ _ _ _ hk]
    · by_cases hk : k = key
      · subst hk
        have hne : k ≠ strUpper k := fun hh => hu hh.symm
        simp only [MqttReplacers.setStr, setConstsMirror, hA]
        simp [hu, mapFind_mapSet_other _ _ _ _ hne, mapFind_mapSet_self]
      · by_cases hk2 : k = strUpper key
        · subst hk2
          simp only [MqttReplacers.setStr, setConstsMirror, hA]
          simp [hu, hk, mapFind_mapSet_self, Ne.symm hu]
        · simp only [MqttReplacers.setStr, setConstsMirror, hA]
          simp [hu, hk, hk2, mapFind_mapSet_other _ _ _ _ hk2,
            mapFind_mapSet_other _ _ _ _ hk]

/-- C10: the integer overload MqttReplacers::set(key, int) writes only the
constant entry for key with the decimal rendering of the value: every other
constant is unchanged, no upper-cased mirror is created, and the stored
templates are untouched. -/
theorem c10_set_int_frame (st : MqttReplacers) (key : Str) (v : Int) (k : Str) (h : k ≠ key) :
    mapFind ((st.setInt key v).constants) key = some (intToStr v)
    ∧ mapFind ((st.setInt key v).constants) k = mapFind st.constants k
    ∧ (st.setInt key v).replacers = st.replacers := by
  refine ⟨?_, ?_, rfl⟩
  · simp [MqttReplacers.setInt, mapFind_mapSet_self]
  · simp [MqttReplacers.setInt, mapFind_mapSet_other _ _ _ _ h]

theorem c10_set_int_frame_witness :
    mapFind ((MqttReplacers.setInt ⟨[("a".data, "x".data)], []⟩ ("p".data) 7).constants)
        ("p".data) = some (intToStr 7)
    ∧ mapFind ((MqttReplacers.setInt ⟨[("a".data, "x".data)], []⟩ ("p".data) 7).constants)
        ("a".data) = mapFind [("a".data, "x".data)] ("a".data)
    ∧ (MqttReplacers.setInt ⟨[("a".data, "x".data)], []⟩ ("p".data) 7).replacers
        = ([] : AMap MqttReplacer) :=
  c10_set_int_frame ⟨[("a".data, "x".data)], []⟩ ("p".data) 7 ("a".data) (by decide)

/-- C1: the render/match round trip fails on the code. The spec's own example
template rendered with circuit heating and name temp gives
ebusd/heating/temp, but matchTopic hands back the whole rendered string as
the trailing name field (value = remain at source line 549) instead of temp,
so matching does not recover the rendered-in name value. -/
theorem c1_render_match_not_inverse_eval :
    ((MqttReplacer.parse ⟨[], false⟩ ("ebusd/%circuit/%name".data) false false false).2).get
        [("circuit".data, "heating".data), ("name".data, "temp".data)] false false
      = "ebusd/heating/temp".data
    ∧ ((MqttReplacer.parse ⟨[], false⟩ ("ebusd/%circuit/%name".data) false false false).2).matchTopic
        ("ebusd/heating/temp".data) [] [] []
      = (4, "heating".data, "ebusd/heating/temp".data, [])
    ∧ "ebusd/heating/temp".data ≠ "temp".data := by decide

/-- C3: a literal-part mismatch in matchTopic returns the plain part index,
not its negative. The template with parts literal a and literal percent-b
mismatches the candidate aXb at part index 1, and the source (line 529)
returns 1, a non-negative value. -/
theorem c3_literal_mismatch_positive_return_eval :
    ((MqttReplacer.parse ⟨[], false⟩ ("a%%b".data) false false false).2).parts
      = [("a".data, -1), ("%b".data, -1)]
    ∧ (((MqttReplacer.parse ⟨[], false⟩ ("a%%b".data) false false false).2).matchTopic
        ("aXb".data) [] [] []).1 = 1
    ∧ ¬ ((((MqttReplacer.parse ⟨[], false⟩ ("a%%b".data) false false false).2).matchTopic
        ("aXb".data) [] [] []).1 < 0) := by decide

/-- C2 counterexample: a failed parse does not leave the parts sequence
unchanged. Starting from a replacer holding the single literal abc, parsing a
template with a duplicated circuit field under noKnownDuplicates returns
false, yet the stored parts are now those scanned from the new template. -/
theorem c2_parse_fail_state_changed_cex :
    (MqttReplacer.parse ⟨[("abc".data, -1)], false⟩ ("%circuit/%circuit".data)
        false true false).1 = false
    ∧ (MqttReplacer.parse ⟨[("abc".data, -1)], false⟩ ("%circuit/%circuit".data)
        false true false).2.parts ≠ [("abc".data, -1)] := by decide

/-- C2 as amended: when parse fails (which can only happen with onlyKnown or
noKnownDuplicates set) it returns false and leaves the emptyIfMissing flag
unchanged, but the parts sequence is overwritten with the parts scanned from
the new template string - the resulting parts do not depend on the state the
replacer held before the call. -/
theorem c2_parse_fail_state_amended (r : MqttReplacer) (tpl : Str) (ok nd eim : Bool)
    (h : (r.parse tpl ok nd eim).1 = false) :
    (r.parse tpl ok nd eim).2.emptyIfMissing = r.emptyIfMissing
    ∧ (∀ r2 : MqttReplacer, (r2.parse tpl ok nd eim).2.parts = (r.parse tpl ok nd eim).2.parts)
    ∧ (ok = true ∨ nd = true) := by
  by_cases hc : ((ok || nd) = true ∧ checkParts (scanTpl tpl false [] []) 0 ok nd = false)
  · refine ⟨?_, ?_, ?_⟩
    · simp [MqttReplacer.parse, hc]
    · intro r2
      simp [MqttReplacer.parse, hc]
    · cases ok with
      | true => exact Or.inl rfl
      | false =>
        cases nd with
        | true => exact Or.inr rfl
        | false => simp at hc
  · exfalso
    simp only [MqttReplacer.parse] at h
    rw [if_neg hc] at h
    simp at h

theorem c2_parse_fail_state_amended_witness :
    (MqttReplacer.parse ⟨[], true⟩ ("%name/%name".data) false true false).2.emptyIfMissing
      = (⟨[], true⟩ : MqttReplacer).emptyIfMissing
    ∧ (∀ r2 : MqttReplacer, (r2.parse ("%name/%name".data) false true false).2.parts
        = (MqttReplacer.parse ⟨[], true⟩ ("%name/%name".data) false true false).2.parts)
    ∧ (false = true ∨ true = true) :=
  c2_parse_fail_state_amended ⟨[], true⟩ ("%name/%name".data) false true false (by decide)

/-- C4 counterexample: with emptyIfMissing set and the single referenced
field missing from the value set, reduce produces the empty string but
reports the reduction as unresolved (returns false, source line 506), not as
resolved as the claim states. -/
theorem c4_reduce_missing_unresolved_cex :
    (MqttReplacer.reduce ⟨[("circuit".data, 0)], true⟩ [] false).1 = []
    ∧ (MqttReplacer.reduce ⟨[("circuit".data, 0)], true⟩ [] false).2 = false := by decide

/-- The first problematic referenced field of a parts list against a value
set, in part order: some true when it is present with an empty value, some
false when it is missing, none when every referenced field is present and
non-empty. Used to state the corrected form of the reduce claim. -/
def firstProblem (vs : CMap) : List TplPart → Option Bool
  | [] => none
  | (txt, k) :: rest =>
    if k < 0 then firstProblem vs rest
    else
      match mapFind vs txt with
      | none => some false
      | some v => if v = [] then some true else firstProblem vs rest

theorem reduceAux_firstProblem (vs : CMap) (parts : List TplPart) (acc : Str) (b : Bool)
    (h : firstProblem vs parts = some b) :
    reduceAux true vs parts acc = .error ([], b) := by
  induction parts generalizing acc with
  | nil => simp [firstProblem] at h
  | cons hd rest ih =>
    obtain ⟨txt, k⟩ := hd
    by_cases hk : k < 0
    · simp [firstProblem, hk] at h
      simpa [reduceAux, hk] using ih _ h
    · cases hv : mapFind vs txt with
      | none =>
        simp [firstProblem, hk, hv] at h
        subst h
        simp [reduceAux, hk, hv]
      | some v =>
        by_cases hve : v = []
        · simp [firstProblem, hk, hv, hve] at h
          subst h
          simp [reduceAux, hk, hv, hve]
        · simp [firstProblem, hk, hv, hve] at h
          simpa [reduceAux, hk, hv, hve] using ih _ h

/-- C4 as amended: when emptyIfMissing is set and some referenced field is
missing or has an empty value, reduce produces the empty string; it reports
the reduction as resolved (true) exactly when the first such problematic
field, in part order, is present with an empty value, and as unresolved
(false) when that first problematic field is missing from the value set. -/
theorem c4_reduce_empty_if_missing_amended (r : MqttReplacer) (vs : CMap) (oa : Bool) (b : Bool)
    (h1 : r.emptyIfMissing = true) (h2 : firstProblem vs r.parts = some b) :
    r.reduce vs oa = ([], b) := by
  simp [MqttReplacer.reduce, h1, reduceAux_firstProblem vs r.parts [] b h2]

theorem c4_reduce_empty_if_missing_amended_witness :
    MqttReplacer.reduce ⟨[("x".data, 3)], true⟩ [("x".data, [])] false = ([], true) :=
  c4_reduce_empty_if_missing_amended ⟨[("x".data, 3)], true⟩ [("x".data, [])] false true
    (by decide) (by decide)

/-- The number of field parts carrying the given field name, used to state the
ensureDefault claim. -/
def countField (parts : List TplPart) (f : Str) : Nat :=
  parts.countP (fun q => decide (0 ≤ q.2 ∧ q.1 = f))

theorem countField_append (a b : List TplPart) (f : Str) :
    countField (a ++ b) f = countField a f + countField b f := by
  simp [countField, List.countP_append]

theorem hasField_iff_countField (parts : List TplPart) (f : Str) :
    hasField parts f = true ↔ countField parts f ≠ 0 := by
  rw [hasField, countField, List.any_eq_true]
  constructor
  · intro hex
    have hpos : 0 < parts.countP (fun q => decide (0 ≤ q.2 ∧ q.1 = f)) :=
      List.countP_pos_iff.mpr hex
    omega
  · intro hh
    exact List.countP_pos_iff.mp (Nat.pos_of_ne_zero hh)

theorem countField_of_not_has (parts : List TplPart) (f : Str)
    (h : hasField parts f = false) : countField parts f = 0 := by
  by_contra hc
  have := (hasField_iff_countField parts f).mpr hc
  rw [h] at this
  exact Bool.false_ne_true this

theorem countField_ensureSeed (parts : List TplPart) (f : Str) :
    countField (ensureSeed parts) f = countField parts f := by
  match parts with
  | [] => simp [ensureSeed, countField, List.countP_cons]
  | [(txt, k)] =>
    by_cases hk : k < 0 ∧ ¬ '/' ∈ txt
    · have hk0 : ¬ (0 : Int) ≤ k := by omega
      simp [ensureSeed, hk, countField, List.countP_cons, hk0]
    · simp [ensureSeed, hk]
  | a :: b :: rest => simp [ensureSeed]

theorem countField_ensureFields (p1 : List TplPart) :
    (countField (ensureFields p1) ("circuit".data)
      = if countField p1 ("circuit".data) = 0 then 1 else countField p1 ("circuit".data))
    ∧ (countField (ensureFields p1) ("name".data)
      = if countField p1 ("name".data) = 0 then 1 else countField p1 ("name".data)) := by
  have hchunkc : countField [(("circuit".data : Str), (0 : Int)), (("/".data : Str), (-1 : Int))]
      ("circuit".data) = 1 := by decide
  have hchunkn : countField [(("circuit".data : Str), (0 : Int)), (("/".data : Str), (-1 : Int))]
      ("name".data) = 0 := by decide
  have hnamec : countField [(("name".data : Str), (1 : Int))] ("circuit".data) = 0 := by decide
  have hnamen : countField [(("name".data : Str), (1 : Int))] ("name".data) = 1 := by decide
  by_cases h1 : hasField p1 ("circuit".data) = true
  · have hc1 : countField p1 ("circuit".data) ≠ 0 := (hasField_iff_countField _ _).mp h1
    by_cases h2 : hasField p1 ("name".data) = true
    · have hn1 : countField p1 ("name".data) ≠ 0 := (hasField_iff_countField _ _).mp h2
      simp [ensureFields, h1, h2, hc1, hn1]
    · have hn0 : countField p1 ("name".data) = 0 :=
        countField_of_not_has _ _ (Bool.not_eq_true _ ▸ Bool.of_not_eq_true h2)
      simp [ensureFields, h1, h2, hc1, hn0, countField_append, hnamec, hnamen]
  · have hc0 : countField p1 ("circuit".data) = 0 :=
      countField_of_not_has _ _ (Bool.of_not_eq_true h1)
    have h2eq : countField (p1 ++ [(("circuit".data : Str), (0 : Int)),
        (("/".data : Str), (-1 : Int))]) ("name".data) = countField p1 ("name".data) := by
      simp [countField_append, hchunkn]
    by_cases h2 : hasField (p1 ++ [(("circuit".data : Str), (0 : Int)),
        (("/".data : Str), (-1 : Int))]) ("name".data) = true
    · have hn1 : countField p1 ("name".data) ≠ 0 := by
        have := (hasField_iff_countField _ _).mp h2
        rwa [h2eq] at this
      simp [ensureFields, h1, h2, hc0, hn1, countField_append, hchunkc, hchunkn]
    · have hn0 : countField p1 ("name".data) = 0 := by
        have := countField_of_not_has _ _ (Bool.of_not_eq_true h2)
        rwa [h2eq] at this
      have hc0x : countField p1 (['c', 'i', 'r', 'c', 'u', 'i', 't'] : Str) = 0 := hc0
      have hn0x : countField p1 (['n', 'a', 'm', 'e'] : Str) = 0 := hn0
      simp only [ensureFields, h1, h2, if_false, Bool.false_eq_true, if_neg,
        countField_append, hc0x, hn0x]
      decide

/-- C5 counterexample: ensureDefault does not guarantee exactly one circuit
field for every starting state. A template already holding two circuit fields
keeps both, since the circuit-presence check only tests for existence. -/
theorem c5_ensure_default_duplicate_cex :
    countField ((MqttReplacer.ensureDefault
        ⟨[("circuit".data, 0), ("circuit".data, 0)], false⟩).parts) ("circuit".data) = 2
    ∧ countField ((MqttReplacer.ensureDefault
        ⟨[("circuit".data, 0), ("circuit".data, 0)], false⟩).parts) ("circuit".data) ≠ 1 := by
  decide

/-- C5 as amended: after ensureDefault the template contains a circuit field
and a name field at least once each; the number of circuit (resp. name)
fields is exactly one when the starting template had none, and otherwise is
the starting count - so it is exactly one whenever the starting template
contained that field at most once, but pre-existing duplicates are kept. -/
theorem c5_ensure_default_counts_amended (r : MqttReplacer) :
    (countField (r.ensureDefault).parts ("circuit".data)
      = if countField r.parts ("circuit".data) = 0 then 1
        else countField r.parts ("circuit".data))
    ∧ (countField (r.ensureDefault).parts ("name".data)
      = if countField r.parts ("name".data) = 0 then 1
        else countField r.parts ("name".data)) := by
  have h := countField_ensureFields (ensureSeed r.parts)
  rw [countField_ensureSeed, countField_ensureSeed] at h
  exact h

theorem parsePriority_range (s : Str) (n : Nat) (h : parsePriority s = some n) :
    1 ≤ n ∧ n ≤ 9 := by
  simp only [parsePriority] at h
  by_cases h1 : (s ≠ [] ∧ s.all isDigitCh = true)
  · rw [if_pos h1] at h
    by_cases h2 : 1 ≤ digitsToNat s ∧ digitsToNat s ≤ 9
    · rw [if_pos h2] at h
      cases h
      exact h2
    · rw [if_neg h2] at h
      exact absurd h (by simp)
  · rw [if_neg h1] at h
    exact absurd h (by simp)

/-- C8: on a get command for a non-passive message, the payload consisting of
a question mark and the digit 5 yields an empty payload for the bus read and a
requested poll-priority bump to 5; and in general a bump is requested only
for a priority between 1 and 9 whose question mark sits at position 0 or
directly after the field separator. -/
theorem c8_get_poll_priority_suffix (data : Str) (p : Nat)
    (h : (getPayloadSlice data).2 = some p) :
    getPayloadSlice ("?5".data) = ([], some 5)
    ∧ 1 ≤ p ∧ p ≤ 9
    ∧ ∃ pos, findLastOf data '?' = some pos
        ∧ (pos = 0 ∨ data.get? (pos - 1) = some UI_FIELD_SEPARATOR) := by
  refine ⟨by decide, ?_⟩
  simp only [getPayloadSlice] at h
  split at h
  · exact absurd h (by simp)
  · rename_i pos hf
    by_cases hcond : (0 < pos ∧ data.get? (pos - 1) ≠ some UI_FIELD_SEPARATOR)
    · rw [if_pos hcond] at h
      exact absurd h (by simp)
    · rw [if_neg hcond] at h
      have hpos : pos = 0 ∨ data.get? (pos - 1) = some UI_FIELD_SEPARATOR := by
        by_cases hp0 : pos = 0
        · exact Or.inl hp0
        · refine Or.inr ?_
          by_contra hne
          exact hcond ⟨Nat.pos_of_ne_zero hp0, hne⟩
      by_cases hargs : data.drop (pos + 1) = []
      · rw [if_pos hargs] at h
        exact absurd h (by simp)
      · rw [if_neg hargs] at h
        split at h
        · rename_i q hq
          have hr := parsePriority_range _ _ hq
          have hq0 : 0 < q := by omega
          rw [if_pos hq0] at h
          have hpq : q = p := Option.some.inj h
          subst hpq
          exact ⟨hr.1, hr.2, pos, hf, hpos⟩
        · exact absurd h (by simp)

theorem c8_get_poll_priority_suffix_witness :
    getPayloadSlice ("?5".data) = ([], some 5)
    ∧ 1 ≤ 7 ∧ 7 ≤ 9
    ∧ ∃ pos, findLastOf ("x;?7".data) '?' = some pos
        ∧ (pos = 0 ∨ ("x;?7".data).get? (pos - 1) = some UI_FIELD_SEPARATOR) :=
  c8_get_poll_priority_suffix ("x;?7".data) 7 (by decide)

theorem handleTraffic_attempt_eq (st : MqttConnState) (ar : Bool) (inp : TrafficInput) :
    (handleTraffic st ar inp).2.2
      = if st.hasMosq = false then false
        else decide (st.connected = false
          ∧ (inp.loopRet = .noConn ∨ inp.loopRet = .connLost) ∧ ar = true) := by
  simp only [handleTraffic]
  split
  · rfl
  · repeat' split
    all_goals rfl

theorem handleTraffic_attempt (st : MqttConnState) (ar : Bool) (inp : TrafficInput)
    (h : (handleTraffic st ar inp).2.2 = true) :
    ar = true ∧ st.connected = false
    ∧ (inp.loopRet = .noConn ∨ inp.loopRet = .connLost) := by
  rw [handleTraffic_attempt_eq] at h
  by_cases hm : st.hasMosq = false
  · rw [if_pos hm] at h
    exact absurd h (by simp)
  · rw [if_neg hm] at h
    have hd := of_decide_eq_true h
    exact ⟨hd.2.2, hd.1, hd.2.1⟩

theorem mqttRunStep_attempt_eq (st : MqttRunState) (inp : RunInput) :
    (mqttRunStep st inp).2 = (handleTraffic st.conn st.allowReconnect inp.traffic).2.2 := by
  simp only [mqttRunStep]
  split
  · rfl
  · split <;> rfl

theorem mqttRunStep_allow (st : MqttRunState) (inp : RunInput)
    (h : (mqttRunStep st inp).1.allowReconnect = true) :
    st.start ≤ inp.now ∧ st.lastTaskRun + 15 < inp.now := by
  simp only [mqttRunStep] at h
  by_cases h1 : inp.now < st.start
  · rw [if_pos h1] at h
    simp at h
  · rw [if_neg h1] at h
    by_cases h2 : st.lastTaskRun + 15 < inp.now
    · exact ⟨by omega, h2⟩
    · rw [if_neg h2] at h
      simp at h

/-- C9: a connect or reconnect attempt in the scheduler loop happens only on
an iteration whose allowReconnect latch was set, and the latch is set only by
an iteration on which the periodic task timer fired: more than 15 seconds
past the last task run with no clock skew. So across two consecutive loop
iterations, an attempt made by the second one requires the first to have seen
the timer fire while disconnected traffic reported a lost or absent
connection - reconnection never happens on every loop iteration. -/
theorem c9_reconnect_only_after_task_tick (st : MqttRunState) (inp1 inp2 : RunInput)
    (h : (mqttRunStep (mqttRunStep st inp1).1 inp2).2 = true) :
    (mqttRunStep st inp1).1.allowReconnect = true
    ∧ st.start ≤ inp1.now ∧ st.lastTaskRun + 15 < inp1.now
    ∧ (mqttRunStep st inp1).1.conn.connected = false
    ∧ (inp2.traffic.loopRet = .noConn ∨ inp2.traffic.loopRet = .connLost) := by
  rw [mqttRunStep_attempt_eq] at h
  have ha := handleTraffic_attempt _ _ _ h
  have hb := mqttRunStep_allow st inp1 ha.1
  exact ⟨ha.1, hb.1, hb.2, ha.2.1, ha.2.2⟩

theorem c9_reconnect_only_after_task_tick_witness :
    (mqttRunStep (⟨⟨true, false, false, 0⟩, 0, 0, false⟩ : MqttRunState)
        ⟨16, 16, ⟨.connLost, .success, .success, 0⟩⟩).1.allowReconnect = true
    ∧ (⟨⟨true, false, false, 0⟩, 0, 0, false⟩ : MqttRunState).start ≤ (16 : Int)
    ∧ (⟨⟨true, false, false, 0⟩, 0, 0, false⟩ : MqttRunState).lastTaskRun + 15 < (16 : Int)
    ∧ (mqttRunStep (⟨⟨true, false, false, 0⟩, 0, 0, false⟩ : MqttRunState)
        ⟨16, 16, ⟨.connLost, .success, .success, 0⟩⟩).1.conn.connected = false
    ∧ ((⟨17, 17, ⟨.connLost, .success, .inval, 0⟩⟩ : RunInput).traffic.loopRet = .noConn
        ∨ (⟨17, 17, ⟨.connLost, .success, .inval, 0⟩⟩ : RunInput).traffic.loopRet = .connLost) :=
  c9_reconnect_only_after_task_tick ⟨⟨true, false, false, 0⟩, 0, 0, false⟩
    ⟨16, 16, ⟨.connLost, .success, .success, 0⟩⟩
    ⟨17, 17, ⟨.connLost, .success, .inval, 0⟩⟩ (by decide)

theorem reducePass_mono (todo : AMap MqttReplacer) (cs : CMap) (prev : AMap MqttReplacer)
    (evts : List FoldEv) (cs1 : CMap) (rs1 : AMap MqttReplacer) (b : Bool)
    (evts1 : List FoldEv)
    (h : reducePass cs prev todo true evts = some (cs1, rs1, b, evts1)) : b = true := by
  induction todo generalizing cs prev evts with
  | nil =>
    simp only [reducePass] at h
    injection h with h1
    exact (congrArg (fun x => x.2.2.1) h1).symm
  | cons hd rest ih =>
    obtain ⟨k, r⟩ := hd
    simp only [reducePass] at h
    split at h
    · split at h
      · split at h
        · cases h
        · split at h
          · injection h with h1
            exact (congrArg (fun x => x.2.2.1) h1).symm
          · exact ih _ _ _ h
      · exact ih _ _ _ h
    · exact ih _ _ _ h

theorem reducePass_false (todo : AMap MqttReplacer) (cs : CMap) (prev : AMap MqttReplacer)
    (evts : List FoldEv) (cs1 : CMap) (rs1 : AMap MqttReplacer) (evts1 : List FoldEv)
    (h : reducePass cs prev todo false evts = some (cs1, rs1, false, evts1)) :
    cs1 = cs ∧ rs1 = prev ++ todo ∧ evts1 = evts := by
  induction todo generalizing prev with
  | nil =>
    simp only [reducePass] at h
    injection h with h1
    refine ⟨(congrArg (fun x => x.1) h1).symm, ?_, (congrArg (fun x => x.2.2.2) h1).symm⟩
    rw [List.append_nil]
    exact (congrArg (fun x => x.2.1) h1).symm
  | cons hd rest ih =>
    obtain ⟨k, r⟩ := hd
    simp only [reducePass] at h
    split at h
    · split at h
      · split at h
        · cases h
        · split at h
          · injection h with h1
            exact absurd (congrArg (fun x => x.2.2.1) h1).symm (by simp)
          · exact absurd (reducePass_mono _ _ _ _ _ _ _ _ h) (by simp)
      · exact absurd (reducePass_mono _ _ _ _ _ _ _ _ h) (by simp)
    · have hres := ih (prev ++ [(k, r)]) h
      refine ⟨hres.1, ?_, hres.2.2⟩
      rw [hres.2.1, List.append_assoc]
      rfl

theorem reduceLoop_fixed (fuel : Nat) (cs : CMap) (rs : AMap MqttReplacer)
    (cs1 : CMap) (rs1 : AMap MqttReplacer) (evts : List FoldEv)
    (h : reduceLoop fuel cs rs = some (cs1, rs1, evts)) :
    reducePass cs1 [] rs1 false [] = some (cs1, rs1, false, []) := by
  induction fuel generalizing cs rs evts with
  | zero => cases h
  | succ n ih =>
    simp only [reduceLoop] at h
    split at h
    · cases h
    · rename_i cs2 rs2 red evts2 hpass
      split at h
      · split at h
        · cases h
        · rename_i cs3 rs3 evts3 hrec
          injection h with h1
          have e1 : cs1 = cs3 := (congrArg (fun x => x.1) h1).symm
          have e2 : rs1 = rs3 := (congrArg (fun x => x.2.1) h1).symm
          subst e1
          subst e2
          exact ih _ _ _ hrec
      · rename_i hred
        have hredf : red = false := by
          cases red
          · rfl
          · exact absurd rfl hred
        subst hredf
        injection h with h1
        have e1 : cs1 = cs2 := (congrArg (fun x => x.1) h1).symm
        have e2 : rs1 = rs2 := (congrArg (fun x => x.2.1) h1).symm
        have hres := reducePass_false rs cs [] [] cs2 rs2 evts2 hpass
        rw [e1, e2, hres.1, hres.2.1, List.nil_append]
        rw [hres.1, hres.2.1, hres.2.2, List.nil_append] at hpass
        exact hpass

theorem reducePass_events (todo : AMap MqttReplacer) (cs : CMap) (prev : AMap MqttReplacer)
    (red : Bool) (evts : List FoldEv) (cs1 : CMap) (rs1 : AMap MqttReplacer) (b : Bool)
    (evts1 : List FoldEv)
    (h : reducePass cs prev todo red evts = some (cs1, rs1, b, evts1))
    (hin : ∀ e ∈ evts, (e.2.1).isReducable e.2.2 = true) :
    ∀ e ∈ evts1, (e.2.1).isReducable e.2.2 = true := by
  induction todo generalizing cs prev red evts with
  | nil =>
    simp only [reducePass] at h
    injection h with h1
    have e4 : evts1 = evts := (congrArg (fun x => x.2.2.2) h1).symm
    rw [e4]
    exact hin
  | cons hd rest ih =>
    obtain ⟨k, r⟩ := hd
    simp only [reducePass] at h
    split at h
    · rename_i hg
      have hgOk : r.isReducable cs = true := by
        rw [Bool.and_eq_true] at hg
        exact hg.1
      have hin1 : ∀ e ∈ evts ++ [(k, r, cs)], (e.2.1).isReducable e.2.2 = true := by
        intro e he
        rcases List.mem_append.mp he with h1 | h2
        · exact hin e h1
        · rw [List.mem_singleton.mp h2]
          exact hgOk
      split at h
      · split at h
        · cases h
        · split at h
          · injection h with h1
            have e4 : evts1 = evts ++ [(k, r, cs)] := (congrArg (fun x => x.2.2.2) h1).symm
            rw [e4]
            exact hin1
          · exact ih _ _ _ _ h hin1
      · exact ih _ _ _ _ h hin1
    · exact ih _ _ _ _ h hin

theorem reduceLoop_events (fuel : Nat) (cs : CMap) (rs : AMap MqttReplacer)
    (cs1 : CMap) (rs1 : AMap MqttReplacer) (evts : List FoldEv)
    (h : reduceLoop fuel cs rs = some (cs1, rs1, evts)) :
    ∀ e ∈ evts, (e.2.1).isReducable e.2.2 = true := by
  induction fuel generalizing cs rs evts with
  | zero => cases h
  | succ n ih =>
    simp only [reduceLoop] at h
    split at h
    · cases h
    · rename_i cs2 rs2 red evts2 hpass
      have hev2 : ∀ e ∈ evts2, (e.2.1).isReducable e.2.2 = true :=
        reducePass_events rs cs [] false [] cs2 rs2 red evts2 hpass (by intro e he; cases he)
      split at h
      · split at h
        · cases h
        · rename_i cs3 rs3 evts3 hrec
          injection h with h1
          have ecs : cs3 = cs1 := congrArg (fun x => x.1) h1
          have ers : rs3 = rs1 := congrArg (fun x => x.2.1) h1
          have e4 : evts = evts2 ++ evts3 := (congrArg (fun x => x.2.2) h1).symm
          subst ecs
          subst ers
          rw [e4]
          intro e he
          rcases List.mem_append.mp he with hm1 | hm2
          · exact hev2 e hm1
          · exact ih _ _ _ hrec e hm2
      · injection h with h1
        have e4 : evts = evts2 := (congrArg (fun x => x.2.2) h1).symm
        rw [e4]
        exact hev2

/-- C6: MqttReplacers::reduce terminates at a fixed point - when the loop
completes (without hitting the undefined past-the-end iterator dereference of
the source), running it again immediately returns the same constants and the
same remaining templates with no further fold; and every template that was
folded into a constant satisfied isReducable against the constants map as it
stood at the moment of the fold. -/
theorem c6_reduce_fixed_point (fuel : Nat) (cs cs1 : CMap) (rs rs1 : AMap MqttReplacer)
    (evts : List FoldEv) (h : reduceLoop fuel cs rs = some (cs1, rs1, evts)) :
    (∀ n : Nat, reduceLoop (n + 1) cs1 rs1 = some (cs1, rs1, []))
    ∧ (∀ e ∈ evts, (e.2.1).isReducable e.2.2 = true) := by
  constructor
  · intro n
    have hfix := reduceLoop_fixed fuel cs rs cs1 rs1 evts h
    simp [reduceLoop, hfix]
  · exact reduceLoop_events fuel cs rs cs1 rs1 evts h

theorem c6_reduce_fixed_point_witness :
    (∀ n : Nat, reduceLoop (n + 1)
        [("a".data, "x".data), ("b".data, "x".data), ("B".data, "x".data)]
        [("c".data, ⟨[("zz".data, 3)], false⟩)]
      = some ([("a".data, "x".data), ("b".data, "x".data), ("B".data, "x".data)],
          [("c".data, ⟨[("zz".data, 3)], false⟩)], []))
    ∧ (∀ e ∈ [(("b".data : Str), (⟨[("a".data, 3)], false⟩ : MqttReplacer),
          ([("a".data, "x".data)] : CMap))], (e.2.1).isReducable e.2.2 = true) :=
  c6_reduce_fixed_point 3 [("a".data, "x".data)]
    [("a".data, "x".data), ("b".data, "x".data), ("B".data, "x".data)]
    [("b".data, ⟨[("a".data, 3)], false⟩), ("c".data, ⟨[("zz".data, 3)], false⟩)]
    [("c".data, ⟨[("zz".data, 3)], false⟩)]
    [("b".data, ⟨[("a".data, 3)], false⟩, [("a".data, "x".data)])]
    (by rfl)
